import Mathlib

/-!
# Verification of the ubrowse codepoint browser core

A shallow embedding of the pure core of `ubrowse.c` (a terminal Unicode
character browser) together with proofs about its behaviour.

The character dataset (`charlist` in `data.h`) is a sequence of entries
sorted strictly ascending by codepoint value; the embedding represents it
by its sequence of values (`List Int`) and, where names matter, by the
parallel sequence of official names (`List (List Char)`).  Blocks
(`blocklist`) carry inclusive `from`/`to` bounds.

Functions embedded here follow the C source function by function:
`lookupchar` (nearest-match binary search), `offsetchar`,
`findcharbyname` (circular substring search with an explicit step budget),
`emptyblocksinit`, `readuchar`, `readsinglecharstring`, `jumpui`'s
confirm/cancel behaviour, the column-count clamp in `mainui`, the
confirm/cancel step of `blockselectui`, and the positional-argument and
accent-argument handling of `readcmdline`.
-/

namespace Ubrowse

/-- The value of the highest possible Unicode codepoint (`lastucharval`). -/
def lastucharval : Nat := 0x10FFFF

/-- The smallest width columns are permitted to shrink to (`mincolumnwidth`). -/
def mincolumnwidth : Nat := 8

/-- Strict ascending sortedness of the value sequence, stated over `getD`
so that it is decidable on concrete lists. -/
def sortedLt (e : List Int) : Prop :=
  ∀ j, j < e.length → ∀ i, i < j → e.getD i 0 < e.getD j 0

instance sortedLt_decidable (e : List Int) : Decidable (sortedLt e) := by
  unfold sortedLt; infer_instance

/-- The binary-search loop of `lookupchar`: narrows `[top, bottom]` while
more than two candidates remain, then picks whichever of `top`/`bottom`
is closer (the strict `<` sends exact ties to `bottom`).  The extra
`fuel` argument only makes the recursion structural: the bracket
`bottom - top` shrinks by at least one every round, so `fuel = bottom -
top` (as passed by `lookupchar`) always reaches the final comparison. -/
def lookupLoop (e : List Int) (u : Int) : Nat → Nat → Nat → Nat
  | top, bottom, 0 =>
      if u - e.getD top 0 < e.getD bottom 0 - u then top else bottom
  | top, bottom, fuel + 1 =>
      if 1 < bottom - top then
        if e.getD ((top + bottom) / 2) 0 < u then
          lookupLoop e u ((top + bottom) / 2) bottom fuel
        else if u < e.getD ((top + bottom) / 2) 0 then
          lookupLoop e u top ((top + bottom) / 2) fuel
        else (top + bottom) / 2
      else
        if u - e.getD top 0 < e.getD bottom 0 - u then top else bottom

/-- `lookupchar` from ubrowse.c: find the index of the codepoint with
value `u`, or of the nearest defined codepoint.  It starts the loop at
`top = 0`, `bottom = charlistsize - 1`. -/
def lookupchar (e : List Int) (u : Int) : Nat :=
  lookupLoop e u 0 (e.length - 1) (e.length - 1)

/-- `offsetchar` from ubrowse.c: index of the (nearest) codepoint that is
`charoffset` away from the codepoint at index `pos`. -/
def offsetchar (e : List Int) (pos : Nat) (charoffset : Int) : Nat :=
  lookupchar e (e.getD pos 0 + charoffset)

/-- The specification a `lookupchar` result must satisfy on `[top, bottom]`:
it stays inside the bracket, it is at minimal distance from `u` among all
entries, and every other entry at the same distance has a smaller index. -/
def LookupGood (e : List Int) (u : Int) (top bottom r : Nat) : Prop :=
  top ≤ r ∧ r ≤ bottom ∧
  (∀ j, j < e.length → |u - e.getD r 0| ≤ |u - e.getD j 0|) ∧
  (∀ j, j < e.length → |u - e.getD j 0| = |u - e.getD r 0| → j ≤ r)

theorem lookupBase_spec (e : List Int) (u : Int) (top bottom : Nat)
    (hsort : sortedLt e) (hb : bottom < e.length) (htb : top ≤ bottom)
    (hd : bottom - top ≤ 1)
    (htop : top = 0 ∨ e.getD top 0 < u)
    (hbot : bottom = e.length - 1 ∨ u < e.getD bottom 0) :
    LookupGood e u top bottom
      (if u - e.getD top 0 < e.getD bottom 0 - u then top else bottom) := by
  have hab : e.getD top 0 ≤ e.getD bottom 0 := by
    rcases Nat.lt_or_ge top bottom with h | h
    · exact le_of_lt (hsort bottom hb top h)
    · have : top = bottom := le_antisymm htb h
      simp [this]
  have hlow : ∀ j, j < top → e.getD j 0 < u := by
    intro j hj
    have h1 : e.getD top 0 < u := by
      rcases htop with h | h
      · omega
      · exact h
    exact lt_trans (hsort top (lt_of_le_of_lt htb hb) j hj) h1
  have hhigh : ∀ j, bottom < j → j < e.length → u < e.getD j 0 := by
    intro j hj hjl
    have h1 : u < e.getD bottom 0 := by
      rcases hbot with h | h
      · omega
      · exact h
    exact lt_trans h1 (hsort j hjl bottom hj)
  constructor
  · split <;> omega
  constructor
  · split <;> omega
  constructor
  · intro j hj
    rcases Nat.lt_trichotomy j top with hjt | hjt | hjt
    · have hju : e.getD j 0 < u := hlow j hjt
      have hje : e.getD j 0 < e.getD top 0 := hsort top (lt_of_le_of_lt htb hb) j hjt
      split
      · rcases abs_cases (u - e.getD top 0) with ⟨h1, h1'⟩ | ⟨h1, h1'⟩ <;>
          rcases abs_cases (u - e.getD j 0) with ⟨h2, h2'⟩ | ⟨h2, h2'⟩ <;> omega
      · rcases abs_cases (u - e.getD bottom 0) with ⟨h1, h1'⟩ | ⟨h1, h1'⟩ <;>
          rcases abs_cases (u - e.getD j 0) with ⟨h2, h2'⟩ | ⟨h2, h2'⟩ <;> omega
    · subst hjt
      split
      · omega
      · rename_i hc
        rcases abs_cases (u - e.getD bottom 0) with ⟨h1, h1'⟩ | ⟨h1, h1'⟩ <;>
          rcases abs_cases (u - e.getD j 0) with ⟨h2, h2'⟩ | ⟨h2, h2'⟩ <;> omega
    · rcases Nat.lt_trichotomy j bottom with hjb | hjb | hjb
      · omega
      · subst hjb
        split
        · rename_i hc
          rcases abs_cases (u - e.getD top 0) with ⟨h1, h1'⟩ | ⟨h1, h1'⟩ <;>
            rcases abs_cases (u - e.getD j 0) with ⟨h2, h2'⟩ | ⟨h2, h2'⟩ <;> omega
        · omega
      · have hju : u < e.getD j 0 := hhigh j hjb hj
        have hje : e.getD bottom 0 < e.getD j 0 := hsort j hj bottom hjb
        split
        · rename_i hc
          rcases abs_cases (u - e.getD top 0) with ⟨h1, h1'⟩ | ⟨h1, h1'⟩ <;>
            rcases abs_cases (u - e.getD j 0) with ⟨h2, h2'⟩ | ⟨h2, h2'⟩ <;> omega
        · rcases abs_cases (u - e.getD bottom 0) with ⟨h1, h1'⟩ | ⟨h1, h1'⟩ <;>
            rcases abs_cases (u - e.getD j 0) with ⟨h2, h2'⟩ | ⟨h2, h2'⟩ <;> omega
  · intro j hj heq
    rcases Nat.lt_trichotomy j bottom with hjb | hjb | hjb
    · split <;> rename_i hc
      · -- result is top; show j ≤ top by ruling out top < j < bottom (none)
        -- and j with strictly larger distance
        rcases Nat.lt_trichotomy j top with h | h | h
        · omega
        · omega
        · -- top < j < bottom impossible since bottom - top ≤ 1
          omega
      · omega
    · by_cases hc : u - e.getD top 0 < e.getD bottom 0 - u
      · -- result top, j = bottom: distance to bottom is strictly larger
        rw [if_pos hc] at heq ⊢
        rw [hjb] at heq
        by_cases htb' : top = bottom
        · omega
        · exfalso
          have hab' : e.getD top 0 < e.getD bottom 0 :=
            hsort bottom hb top (by omega)
          rcases abs_cases (u - e.getD top 0) with ⟨h1, h1'⟩ | ⟨h1, h1'⟩ <;>
            rcases abs_cases (u - e.getD bottom 0) with ⟨h2, h2'⟩ | ⟨h2, h2'⟩ <;>
            omega
      · rw [if_neg hc]
        omega
    · exfalso
      have hju : u < e.getD j 0 := hhigh j hjb hj
      have hje : e.getD bottom 0 < e.getD j 0 := hsort j hj bottom hjb
      have h1 : u < e.getD bottom 0 := by
        rcases hbot with h | h
        · omega
        · exact h
      split at heq <;> rename_i hc
      · rcases abs_cases (u - e.getD top 0) with ⟨h1', h1''⟩ | ⟨h1', h1''⟩ <;>
          rcases abs_cases (u - e.getD j 0) with ⟨h2, h2'⟩ | ⟨h2, h2'⟩ <;> omega
      · rcases abs_cases (u - e.getD bottom 0) with ⟨h1', h1''⟩ | ⟨h1', h1''⟩ <;>
          rcases abs_cases (u - e.getD j 0) with ⟨h2, h2'⟩ | ⟨h2, h2'⟩ <;> omega

theorem lookupLoop_spec (e : List Int) (u : Int) (hsort : sortedLt e) :
    ∀ k top bottom, bottom - top ≤ k → bottom < e.length → top ≤ bottom →
      (top = 0 ∨ e.getD top 0 < u) → (bottom = e.length - 1 ∨ u < e.getD bottom 0) →
      LookupGood e u top bottom (lookupLoop e u top bottom k) := by
  intro k
  induction k with
  | zero =>
      intro top bottom hk hb htb htop hbot
      rw [lookupLoop]
      exact lookupBase_spec e u top bottom hsort hb htb (by omega) htop hbot
  | succ k ih =>
      intro top bottom hk hb htb htop hbot
      rw [lookupLoop]
      by_cases h : 1 < bottom - top
      · rw [if_pos h]
        have hn1 : top < (top + bottom) / 2 := by omega
        have hn2 : (top + bottom) / 2 < bottom := by omega
        by_cases h1 : e.getD ((top + bottom) / 2) 0 < u
        · rw [if_pos h1]
          obtain ⟨a, b, c, d⟩ :=
            ih ((top + bottom) / 2) bottom (by omega) hb (by omega) (Or.inr h1) hbot
          exact ⟨by omega, b, c, d⟩
        · rw [if_neg h1]
          by_cases h2 : u < e.getD ((top + bottom) / 2) 0
          · rw [if_pos h2]
            obtain ⟨a, b, c, d⟩ :=
              ih top ((top + bottom) / 2) (by omega) (by omega) (by omega)
                htop (Or.inr h2)
            exact ⟨a, by omega, c, d⟩
          · rw [if_neg h2]
            have heu : e.getD ((top + bottom) / 2) 0 = u :=
              le_antisymm (not_lt.mp h2) (not_lt.mp h1)
            refine ⟨by omega, by omega, ?_, ?_⟩
            · intro j hj
              rw [heu, sub_self, abs_zero]
              exact abs_nonneg _
            · intro j hj hjeq
              rw [heu, sub_self, abs_zero, abs_eq_zero, sub_eq_zero] at hjeq
              rcases Nat.lt_trichotomy j ((top + bottom) / 2) with hjn | hjn | hjn
              · omega
              · omega
              · exfalso
                have := hsort j hj ((top + bottom) / 2) hjn
                omega
      · rw [if_neg h]
        exact lookupBase_spec e u top bottom hsort hb htb (by omega) htop hbot

theorem lookupchar_spec (e : List Int) (u : Int) (hsort : sortedLt e)
    (hne : e ≠ []) : LookupGood e u 0 (e.length - 1) (lookupchar e u) := by
  have hlen : 0 < e.length := List.length_pos.mpr hne
  exact lookupLoop_spec e u hsort (e.length - 1) 0 (e.length - 1) (by omega)
    (by omega) (by omega) (Or.inl rfl) (Or.inl rfl)

theorem lookupchar_lt_length (e : List Int) (u : Int) (hsort : sortedLt e)
    (hne : e ≠ []) : lookupchar e u < e.length := by
  have h := (lookupchar_spec e u hsort hne).2.1
  have hlen : 0 < e.length := List.length_pos.mpr hne
  omega

theorem lookupchar_nearest (e : List Int) (u : Int) (hsort : sortedLt e)
    (hne : e ≠ []) (j : Nat) (hj : j < e.length) :
    |u - e.getD (lookupchar e u) 0| ≤ |u - e.getD j 0| :=
  (lookupchar_spec e u hsort hne).2.2.1 j hj

theorem lookupchar_maxTie (e : List Int) (u : Int) (hsort : sortedLt e)
    (hne : e ≠ []) (j : Nat) (hj : j < e.length)
    (heq : |u - e.getD j 0| = |u - e.getD (lookupchar e u) 0|) :
    j ≤ lookupchar e u :=
  (lookupchar_spec e u hsort hne).2.2.2 j hj heq

/-- On an exactly present value, `lookupchar` returns its (unique) index. -/
theorem lookupchar_exact (e : List Int) (u : Int) (hsort : sortedLt e)
    (hne : e ≠ []) (k : Nat) (hk : k < e.length) (hv : e.getD k 0 = u) :
    lookupchar e u = k := by
  have hr := lookupchar_lt_length e u hsort hne
  have h1 := lookupchar_nearest e u hsort hne k hk
  rw [hv, sub_self, abs_zero] at h1
  have h2 : |u - e.getD (lookupchar e u) 0| = 0 :=
    le_antisymm h1 (abs_nonneg _)
  rw [abs_eq_zero, sub_eq_zero] at h2
  rcases Nat.lt_trichotomy (lookupchar e u) k with h | h | h
  · exfalso
    have := hsort k hk (lookupchar e u) h
    omega
  · exact h
  · exfalso
    have := hsort (lookupchar e u) hr k h
    omega

/-- C1: over the sorted, duplicate-free sequence `[0, 2]` the in-range
value 1 is equidistant from the two straddling entries, yet `lookupchar`
returns index 1 — not the lower index 0 the claim requires. -/
theorem C1_counterexample :
    sortedLt [0, 2] ∧ ([0, 2] : List Int) ≠ [] ∧
    (0 : Int) ≤ 1 ∧ (1 : Int) ≤ (lastucharval : Int) ∧
    |1 - ([0, 2] : List Int).getD 0 0| = |1 - ([0, 2] : List Int).getD 1 0| ∧
    lookupchar [0, 2] 1 ≠ 0 := by decide

/-- C1 (amended): for every integer value in [0, 0x10FFFF], `lookupchar`
over a non-empty, sorted, duplicate-free codepoint entry sequence returns
a valid index whose entry value is the closest available to the input;
when two entries are at equal distance from the input the HIGHER index is
returned (every index at minimal distance is ≤ the result). -/
theorem C1_lookup_total_nearest (e : List Int) (u : Int)
    (hsort : sortedLt e) (hne : e ≠ [])
    (h0 : 0 ≤ u) (h1 : u ≤ (lastucharval : Int)) :
    lookupchar e u < e.length ∧
    (∀ j, j < e.length →
      |u - e.getD (lookupchar e u) 0| ≤ |u - e.getD j 0|) ∧
    (∀ j, j < e.length →
      |u - e.getD j 0| = |u - e.getD (lookupchar e u) 0| →
      j ≤ lookupchar e u) :=
  ⟨lookupchar_lt_length e u hsort hne,
   fun j hj => lookupchar_nearest e u hsort hne j hj,
   fun j hj heq => lookupchar_maxTie e u hsort hne j hj heq⟩

theorem C1_witness :
    lookupchar [0, 10, 12] 6 < ([0, 10, 12] : List Int).length ∧
    (∀ j, j < ([0, 10, 12] : List Int).length →
      |6 - ([0, 10, 12] : List Int).getD (lookupchar [0, 10, 12] 6) 0| ≤
        |6 - ([0, 10, 12] : List Int).getD j 0|) ∧
    (∀ j, j < ([0, 10, 12] : List Int).length →
      |6 - ([0, 10, 12] : List Int).getD j 0| =
        |6 - ([0, 10, 12] : List Int).getD (lookupchar [0, 10, 12] 6) 0| →
      j ≤ lookupchar [0, 10, 12] 6) :=
  C1_lookup_total_nearest [0, 10, 12] 6 (by decide) (by decide) (by decide)
    (by decide)

/-- C6: over the sorted sequence `[0, 4]`, starting from index 0 the
offset +2 snaps (by the tie rule) to the entry 4, and offsetting the
result by -2 snaps to entry 4 again, so the round trip does not return
to the value of the starting entry. -/
theorem C6_counterexample :
    sortedLt [0, 4] ∧
    ([0, 4] : List Int).getD
        (offsetchar [0, 4] (offsetchar [0, 4] 0 2) (-2)) 0 ≠
      ([0, 4] : List Int).getD
        (lookupchar [0, 4] (([0, 4] : List Int).getD 0 0)) 0 := by decide

/-- C6 (amended): when `entries[i].value + d` is itself the value of some
entry, applying `offsetchar` with +d and then -d returns exactly to index
`lookupchar entries[i].value = i`; in general nearest-match snapping can
move the round trip to a different entry (see the counterexample). -/
theorem C6_offset_roundtrip (e : List Int) (hsort : sortedLt e)
    (hne : e ≠ []) (i : Nat) (hi : i < e.length) (d : Int)
    (k : Nat) (hk : k < e.length) (hkv : e.getD k 0 = e.getD i 0 + d) :
    offsetchar e (offsetchar e i d) (-d) = i ∧
    lookupchar e (e.getD i 0) = i := by
  have hii : lookupchar e (e.getD i 0) = i :=
    lookupchar_exact e _ hsort hne i hi rfl
  have h1 : offsetchar e i d = k := by
    unfold offsetchar
    exact lookupchar_exact e _ hsort hne k hk hkv
  refine ⟨?_, hii⟩
  rw [h1]
  unfold offsetchar
  rw [hkv]
  have harith : e.getD i 0 + d + -d = e.getD i 0 := by ring
  rw [harith]
  exact hii

theorem C6_witness :
    offsetchar [0, 4] (offsetchar [0, 4] 0 4) (-4) = 0 ∧
    lookupchar [0, 4] (([0, 4] : List Int).getD 0 0) = 0 :=
  C6_offset_roundtrip [0, 4] (by decide) (by decide) 0 (by decide) 4 1
    (by decide) (by decide)

/-- Data stored for each block (`blockinfo` in data.h); `bfrom`/`bto` are
the inclusive codepoint bounds (named `from`/`to` in the C source;
`from` is reserved in Lean). -/
structure blockinfo where
  bfrom : Int
  bto : Int
  name : List Char
deriving DecidableEq

/-- The body of `emptyblocksinit` for one block: look up the entry
nearest the block's `from` value, and mark the block non-empty iff that
entry or its immediate successor lies within the block's bounds. -/
def emptyblockflag (e : List Int) (b : blockinfo) : Bool :=
  if b.bfrom ≤ e.getD (lookupchar e b.bfrom) 0 ∧
      e.getD (lookupchar e b.bfrom) 0 ≤ b.bto then false
  else if lookupchar e b.bfrom + 1 < e.length ∧
      b.bfrom ≤ e.getD (lookupchar e b.bfrom + 1) 0 ∧
      e.getD (lookupchar e b.bfrom + 1) 0 ≤ b.bto then false
  else true

/-- `emptyblocksinit` from ubrowse.c: the cached per-block emptiness
flags, one per block. -/
def emptyblocksinit (e : List Int) (blocks : List blockinfo) : List Bool :=
  blocks.map (emptyblockflag e)

theorem emptyblockflag_correct (e : List Int) (hsort : sortedLt e)
    (hne : e ≠ []) (b : blockinfo) :
    emptyblockflag e b = true ↔
      ∀ j, j < e.length →
        ¬(b.bfrom ≤ e.getD j 0 ∧ e.getD j 0 ≤ b.bto) := by
  have hnlt : lookupchar e b.bfrom < e.length :=
    lookupchar_lt_length e _ hsort hne
  unfold emptyblockflag
  split_ifs with h1 h2
  · simp only [Bool.false_eq_true, false_iff]
    push_neg
    exact ⟨lookupchar e b.bfrom, hnlt, h1.1, h1.2⟩
  · simp only [Bool.false_eq_true, false_iff]
    push_neg
    exact ⟨lookupchar e b.bfrom + 1, h2.1, h2.2.1, h2.2.2⟩
  · simp only [true_iff]
    intro j hj hcon
    have hnear := lookupchar_nearest e b.bfrom hsort hne j hj
    rcases lt_trichotomy (e.getD (lookupchar e b.bfrom) 0) b.bfrom
      with hA | hA | hA
    · -- the nearest entry sits strictly below the block
      have hn1 : lookupchar e b.bfrom + 1 < e.length := by
        by_contra hcontra
        rcases Nat.lt_trichotomy j (lookupchar e b.bfrom) with hlt | heqj | hgt
        · have := hsort (lookupchar e b.bfrom) hnlt j hlt
          omega
        · rw [heqj] at hcon
          omega
        · omega
      have hup : b.bfrom ≤ e.getD (lookupchar e b.bfrom + 1) 0 := by
        by_contra hcontra
        push_neg at hcontra
        have hmono : e.getD (lookupchar e b.bfrom) 0 <
            e.getD (lookupchar e b.bfrom + 1) 0 :=
          hsort (lookupchar e b.bfrom + 1) hn1 (lookupchar e b.bfrom)
            (by omega)
        have hnear2 := lookupchar_nearest e b.bfrom hsort hne
          (lookupchar e b.bfrom + 1) hn1
        rcases abs_cases (b.bfrom - e.getD (lookupchar e b.bfrom) 0)
          with ⟨ha, ha'⟩ | ⟨ha, ha'⟩ <;>
          rcases abs_cases (b.bfrom - e.getD (lookupchar e b.bfrom + 1) 0)
            with ⟨hb', hb''⟩ | ⟨hb', hb''⟩ <;> omega
      have hjgt : lookupchar e b.bfrom < j := by
        rcases Nat.lt_trichotomy j (lookupchar e b.bfrom) with hlt | heqj | hgt
        · have := hsort (lookupchar e b.bfrom) hnlt j hlt
          omega
        · rw [heqj] at hcon
          omega
        · exact hgt
      have hle : e.getD (lookupchar e b.bfrom + 1) 0 ≤ b.bto := by
        rcases Nat.lt_or_ge (lookupchar e b.bfrom + 1) j with hlt | hge
        · have := hsort j hj (lookupchar e b.bfrom + 1) hlt
          omega
        · have hje : lookupchar e b.bfrom + 1 = j := by omega
          rw [hje]
          exact hcon.2
      exact h2 ⟨hn1, hup, hle⟩
    · exact h1 ⟨by omega, by omega⟩
    · rcases le_or_lt (e.getD (lookupchar e b.bfrom) 0) b.bto with hB | hB
      · exact h1 ⟨le_of_lt hA, hB⟩
      · rcases abs_cases (b.bfrom - e.getD (lookupchar e b.bfrom) 0)
          with ⟨ha, ha'⟩ | ⟨ha, ha'⟩ <;>
          rcases abs_cases (b.bfrom - e.getD j 0)
            with ⟨hb', hb''⟩ | ⟨hb', hb''⟩ <;> omega

/-- C4 (confirmed): for every block, the cached emptiness flag computed
by `emptyblocksinit` (nearest entry to the block's start, or that
entry's immediate successor, tested against the bounds) is true iff no
codepoint entry's value lies within `[from, to]`, for any sorted
duplicate-free non-empty entry sequence. -/
theorem C4_emptiness_agrees (e : List Int) (hsort : sortedLt e)
    (hne : e ≠ []) (blocks : List blockinfo) (i : Nat)
    (hi : i < blocks.length) :
    (emptyblocksinit e blocks).getD i true = true ↔
      ∀ j, j < e.length →
        ¬((blocks.getD i ⟨0, 0, []⟩).bfrom ≤ e.getD j 0 ∧
          e.getD j 0 ≤ (blocks.getD i ⟨0, 0, []⟩).bto) := by
  have hmap : (emptyblocksinit e blocks).getD i true
      = emptyblockflag e (blocks.getD i ⟨0, 0, []⟩) := by
    unfold emptyblocksinit
    rw [List.getD_eq_getElem?_getD, List.getElem?_map,
      List.getD_eq_getElem?_getD]
    have hsome : blocks[i]? = some (blocks.getD i ⟨0, 0, []⟩) := by
      rw [List.getD_eq_getElem?_getD]
      cases hx : blocks[i]? with
      | none =>
          exfalso
          rw [List.getElem?_eq_none_iff] at hx
          omega
      | some v => rfl
    rw [hsome]
    rfl
  rw [hmap]
  exact emptyblockflag_correct e hsort hne (blocks.getD i ⟨0, 0, []⟩)

theorem C4_witness :
    ((emptyblocksinit [255, 261] [⟨256, 511, []⟩]).getD 0 true = true ↔
      ∀ j, j < ([255, 261] : List Int).length →
        ¬((([⟨256, 511, []⟩] : List blockinfo).getD 0 ⟨0, 0, []⟩).bfrom ≤
            ([255, 261] : List Int).getD j 0 ∧
          ([255, 261] : List Int).getD j 0 ≤
            (([⟨256, 511, []⟩] : List blockinfo).getD 0 ⟨0, 0, []⟩).bto)) :=
  C4_emptiness_agrees [255, 261] (by decide) (by decide) [⟨256, 511, []⟩] 0
    (by decide)

/-- The two ways of leaving (or failing to leave) the block list that
C5 is about: Enter (`'\n'`) and cancel (`'q'` / `'\007'`). -/
inductive blockEvent where
  | confirm
  | cancel
deriving DecidableEq

/-- Outcome of one such keystroke in `blockselectui`: either the loop
continues (possibly after `beep()`), or the function returns a
character-table position. -/
inductive blockStep where
  | stay (beep : Bool)
  | leave (pos : Nat)
deriving DecidableEq

/-- The confirm/cancel handling of `blockselectui`: 'q'/^G return the
passed-in character-table position unchanged; Enter on an empty block
beeps and stays in the block list; Enter on a non-empty block leaves
with `lookupchar(blocklist[selected].from)`. -/
def blockselectStep (e : List Int) (blocks : List blockinfo)
    (index selected : Nat) (ev : blockEvent) : blockStep :=
  match ev with
  | .cancel => .leave index
  | .confirm =>
      if (emptyblocksinit e blocks).getD selected true then .stay true
      else .leave (lookupchar e (blocks.getD selected ⟨0, 0, []⟩).bfrom)

/-- C5: with entries `[255, 261]` and the single non-empty block
`[256, 511]`, confirming the block leaves at index 0, whose value 255
lies outside the block — not at the block's first real codepoint
(index 1, value 261). -/
theorem C5_counterexample :
    blockselectStep [255, 261] [⟨256, 511, []⟩] 7 0 .confirm = .leave 0 ∧
    (emptyblocksinit [255, 261] [⟨256, 511, []⟩]).getD 0 true = false ∧
    ¬(256 ≤ ([255, 261] : List Int).getD 0 0 ∧
      ([255, 261] : List Int).getD 0 0 ≤ 511) ∧
    (256 ≤ ([255, 261] : List Int).getD 1 0 ∧
      ([255, 261] : List Int).getD 1 0 ≤ 511) := by decide

/-- C5 (amended): cancelling returns the previous main-table position
unchanged; confirming an empty block causes no transition and an audible
cue; confirming a non-empty block returns to the main table at the entry
nearest (per nearest-match lookup) to the block's `from` value — a valid
index, but not necessarily inside the block when `from` is unassigned
(see the counterexample). -/
theorem C5_blockselect (e : List Int) (hsort : sortedLt e) (hne : e ≠ [])
    (blocks : List blockinfo) (index selected : Nat) :
    blockselectStep e blocks index selected .cancel = .leave index ∧
    ((emptyblocksinit e blocks).getD selected true = true →
      blockselectStep e blocks index selected .confirm = .stay true) ∧
    ((emptyblocksinit e blocks).getD selected true = false →
      blockselectStep e blocks index selected .confirm =
        .leave (lookupchar e (blocks.getD selected ⟨0, 0, []⟩).bfrom) ∧
      lookupchar e (blocks.getD selected ⟨0, 0, []⟩).bfrom < e.length ∧
      (∀ j, j < e.length →
        |(blocks.getD selected ⟨0, 0, []⟩).bfrom -
            e.getD (lookupchar e (blocks.getD selected ⟨0, 0, []⟩).bfrom) 0| ≤
          |(blocks.getD selected ⟨0, 0, []⟩).bfrom - e.getD j 0|)) := by
  refine ⟨rfl, ?_, ?_⟩
  · intro hemp
    simp only [blockselectStep]
    rw [hemp]
    simp
  · intro hemp
    refine ⟨?_, lookupchar_lt_length e _ hsort hne,
      fun j hj => lookupchar_nearest e _ hsort hne j hj⟩
    simp only [blockselectStep]
    rw [hemp]
    simp

theorem C5_witness :
    blockselectStep [255, 261] [⟨256, 511, []⟩] 7 0 .cancel = .leave 7 :=
  (C5_blockselect [255, 261] (by decide) (by decide) [⟨256, 511, []⟩] 7 0).1

/-- The column-count clamping step at the top of `mainui`'s command
loop.  `xtermsize` (the terminal width) is never negative, so Nat
subtraction in `xtermsize - 1` agrees with the C expression, including
`(0 - 1) / 9 = 0` under C's truncating division. -/
def clampcolumncount (xtermsize : Nat) (columncount : Int) : Int :=
  if columncount < 1 then 1
  else if columncount > ((xtermsize - 1) / (mincolumnwidth + 1) : Nat) then
    ((xtermsize - 1) / (mincolumnwidth + 1) : Nat)
  else columncount

/-- C3: at terminal width 5 the claimed interval
`[1, (5-1)/(mincolumnwidth+1)] = [1, 0]` is empty, and the clamp indeed
leaves `columncount = 0`, violating the claimed lower bound 1. -/
theorem C3_counterexample :
    clampcolumncount 5 2 = 0 ∧
    ¬(1 ≤ clampcolumncount 5 2 ∧
      clampcolumncount 5 2 ≤ (((5 - 1) / (mincolumnwidth + 1) : Nat) : Int)) := by
  decide

/-- C3 (amended): whenever the terminal is wide enough for at least one
column — `1 ≤ (W - 1) / (mincolumnwidth + 1)` — the clamped column count
satisfies `1 ≤ columnCount ≤ (W - 1) / (mincolumnwidth + 1)` for every
prior value; for narrower terminals the claimed interval is empty and
the clamp can yield 0 (see the counterexample). -/
theorem C3_clamp_in_range (W : Nat) (cc : Int)
    (hW : 1 ≤ (W - 1) / (mincolumnwidth + 1)) :
    1 ≤ clampcolumncount W cc ∧
    clampcolumncount W cc ≤ (((W - 1) / (mincolumnwidth + 1) : Nat) : Int) := by
  unfold clampcolumncount mincolumnwidth
  unfold mincolumnwidth at hW
  split_ifs with h1 h2 <;> constructor <;> omega

theorem C3_witness :
    1 ≤ clampcolumncount 19 5 ∧
    clampcolumncount 19 5 ≤ (((19 - 1) / (mincolumnwidth + 1) : Nat) : Int) :=
  C3_clamp_in_range 19 5 (by decide)

/-- `strstr` over character lists: does `sub` occur (contiguously) in
`name`?  Checks a prefix match at each successive suffix of `name`. -/
def strstrList (name sub : List Char) : Bool :=
  sub.isPrefixOf name ||
    match name with
    | [] => false
    | _ :: rest => strstrList rest sub

/-- The per-entry match test in `findcharbyname`'s loop: `memchr` checks
that the substring's first byte occurs among the name's bytes, then
`strstr` looks for the substring in a NUL-terminated copy of the name.
For a nonempty substring this is substring occurrence; for the empty
substring `*substring` is the NUL byte, which the (NUL-free) names never
contain. -/
def nameMatches (name sub : List Char) : Bool :=
  match sub with
  | [] => name.contains (Char.ofNat 0)
  | c :: _ => name.contains c && strstrList name sub

/-- One step of the circular walk in `findcharbyname`:
`pos += direction`, wrapping past the end to 0 and below 0 to the end. -/
def stepPos (size pos : Nat) (dir : Int) : Nat :=
  if (size : Int) ≤ (pos : Int) + dir then 0
  else if (pos : Int) + dir < 0 then size - 1
  else ((pos : Int) + dir).toNat

/-- The search loop of `findcharbyname`.  `fuel` bounds the number of
iterations and only makes the recursion structural: `none` means the
budget ran out, `some none` that the walk came back to `startpos`
without a match (C returns -1), `some (some p)` a match at index `p`.
`findcharbyname` passes `fuel = size`, which is proven to always reach
an answer. -/
def findLoop (names : List (List Char)) (sub : List Char)
    (startpos : Nat) (dir : Int) : Nat → Nat → Option (Option Nat)
  | _, 0 => none
  | pos, fuel + 1 =>
      if nameMatches (names.getD (stepPos names.length pos dir) []) sub then
        some (some (stepPos names.length pos dir))
      else if stepPos names.length pos dir = startpos then some none
      else findLoop names sub startpos dir (stepPos names.length pos dir) fuel

/-- `findcharbyname` from ubrowse.c.  The static `lastsubstring` buffer
is passed and returned explicitly; `substring = none` is the NULL
argument that reuses the previous search string.  An over-long substring
(≥ 255 bytes, the local buffer limit) is rejected up front. -/
def findcharbyname (names : List (List Char)) (lastsub : List Char)
    (substring : Option (List Char)) (startpos : Nat) (dir : Int) :
    Option Nat × List Char :=
  match substring with
  | some sub =>
      if 255 ≤ sub.length then (none, lastsub)
      else
        match findLoop names sub startpos dir startpos names.length with
        | some (some p) => (some p, sub)
        | _ => (none, lastsub)
  | none =>
      if lastsub.isEmpty then (none, lastsub)
      else
        match findLoop names lastsub startpos dir startpos names.length with
        | some (some p) => (some p, lastsub)
        | _ => (none, lastsub)

/-- Number of loop iterations before the circular walk re-reaches
`startpos` from `pos` (so `size` when `pos = startpos`). -/
def togo (size startpos pos : Nat) (dir : Int) : Nat :=
  if dir = 1 then
    if pos < startpos then startpos - pos else size + startpos - pos
  else
    if startpos < pos then pos - startpos else size + pos - startpos

theorem getD_mem {α : Type} (l : List α) (i : Nat) (d : α)
    (h : i < l.length) : l.getD i d ∈ l := by
  rw [List.getD_eq_getElem?_getD, List.getElem?_eq_getElem h]
  exact List.getElem_mem h

theorem stepPos_lt (size pos : Nat) (dir : Int)
    (hdir : dir = 1 ∨ dir = -1) (hpos : pos < size) :
    stepPos size pos dir < size := by
  rcases hdir with h | h <;> subst h <;> unfold stepPos <;>
    split_ifs <;> omega

theorem stepPos_one (size pos : Nat) (hpos : pos < size) :
    stepPos size pos 1 = if pos + 1 = size then 0 else pos + 1 := by
  unfold stepPos
  split_ifs <;> omega

theorem stepPos_negone (size pos : Nat) (hpos : pos < size) :
    stepPos size pos (-1) = if pos = 0 then size - 1 else pos - 1 := by
  unfold stepPos
  split_ifs <;> omega

theorem togo_one (size startpos pos : Nat) :
    togo size startpos pos 1 =
      if pos < startpos then startpos - pos else size + startpos - pos := by
  unfold togo
  norm_num

theorem togo_negone (size startpos pos : Nat) :
    togo size startpos pos (-1) =
      if startpos < pos then pos - startpos else size + pos - startpos := by
  unfold togo
  norm_num

theorem togo_step (size startpos pos : Nat) (dir : Int)
    (hdir : dir = 1 ∨ dir = -1) (hpos : pos < size) (hs : startpos < size)
    (hne : stepPos size pos dir ≠ startpos) :
    togo size startpos (stepPos size pos dir) dir + 1 =
      togo size startpos pos dir := by
  rcases hdir with h | h <;> subst h
  · rw [stepPos_one size pos hpos] at hne ⊢
    rw [togo_one, togo_one]
    by_cases hps : pos + 1 = size
    · rw [if_pos hps] at hne ⊢
      split_ifs <;> omega
    · rw [if_neg hps] at hne ⊢
      split_ifs <;> omega
  · rw [stepPos_negone size pos hpos] at hne ⊢
    rw [togo_negone, togo_negone]
    by_cases hps : pos = 0
    · rw [if_pos hps] at hne ⊢
      split_ifs <;> omega
    · rw [if_neg hps] at hne ⊢
      split_ifs <;> omega

theorem findLoop_spec (names : List (List Char)) (sub : List Char)
    (startpos : Nat) (dir : Int) (hdir : dir = 1 ∨ dir = -1)
    (hs : startpos < names.length) :
    ∀ fuel pos, pos < names.length →
      togo names.length startpos pos dir ≤ fuel →
      findLoop names sub startpos dir pos fuel ≠ none ∧
      ((∀ nm ∈ names, nameMatches nm sub = false) →
        findLoop names sub startpos dir pos fuel = some none) ∧
      (∀ p, findLoop names sub startpos dir pos fuel = some (some p) →
        p < names.length ∧ nameMatches (names.getD p []) sub = true) := by
  intro fuel
  induction fuel with
  | zero =>
      intro pos hpos hfuel
      exfalso
      rcases hdir with h | h <;> subst h
      · rw [togo_one] at hfuel
        split_ifs at hfuel <;> omega
      · rw [togo_negone] at hfuel
        split_ifs at hfuel <;> omega
  | succ fuel ih =>
      intro pos hpos hfuel
      have hplt : stepPos names.length pos dir < names.length :=
        stepPos_lt names.length pos dir hdir hpos
      rw [findLoop]
      by_cases hm :
          nameMatches (names.getD (stepPos names.length pos dir) []) sub = true
      · rw [if_pos hm]
        refine ⟨by simp, ?_, ?_⟩
        · intro hno
          exfalso
          have hmem := getD_mem names (stepPos names.length pos dir) [] hplt
          rw [hno _ hmem] at hm
          exact Bool.false_ne_true hm
        · intro p hp
          simp only [Option.some.injEq] at hp
          rw [← hp]
          exact ⟨hplt, hm⟩
      · rw [if_neg hm]
        by_cases hps : stepPos names.length pos dir = startpos
        · rw [if_pos hps]
          refine ⟨by simp, fun _ => rfl, ?_⟩
          intro p hp
          simp at hp
        · rw [if_neg hps]
          apply ih (stepPos names.length pos dir) hplt
          have := togo_step names.length startpos pos dir hdir hpos hs hps
          omega

/-- C7 (confirmed): for every substring, start index and direction ±1,
the circular search of `findcharbyname` terminates: the walk starts
immediately after the start index, and the step budget of one full wrap
(`size` steps, start index inclusive as termination point) is never
exhausted; if no entry name matches, `findcharbyname` reports not-found
and leaves the saved search string unchanged; and any reported match is
a valid index whose name matches. -/
theorem C7_search_terminates (names : List (List Char)) (sub : List Char)
    (lastsub : List Char) (startpos : Nat) (dir : Int)
    (hdir : dir = 1 ∨ dir = -1) (hs : startpos < names.length) :
    findLoop names sub startpos dir startpos names.length ≠ none ∧
    ((∀ nm ∈ names, nameMatches nm sub = false) →
      findcharbyname names lastsub (some sub) startpos dir =
        (none, lastsub)) ∧
    (∀ p, findLoop names sub startpos dir startpos names.length =
        some (some p) →
      p < names.length ∧ nameMatches (names.getD p []) sub = true) := by
  have htogo : togo names.length startpos startpos dir ≤ names.length := by
    rcases hdir with h | h <;> subst h
    · rw [togo_one]
      split_ifs <;> omega
    · rw [togo_negone]
      split_ifs <;> omega
  have hmain := findLoop_spec names sub startpos dir hdir hs
    names.length startpos hs htogo
  refine ⟨hmain.1, ?_, hmain.2.2⟩
  intro hno
  have hfind := hmain.2.1 hno
  by_cases hlen : 255 ≤ sub.length
  · simp [findcharbyname, hlen]
  · simp [findcharbyname, hlen, hfind]

theorem C7_witness :
    findcharbyname [['A'], ['B']] [] (some ['Z']) 0 1 = (none, []) :=
  (C7_search_terminates [['A'], ['B']] ['Z'] [] 0 1 (by decide)
    (by decide)).2.1 (by decide)

/-- C9 (confirmed): a search substring of length at least 255 bytes
makes `findcharbyname` report not-found immediately — for every name
list, even one containing the substring, every start index and
direction — and leaves the saved previous-search string unchanged. -/
theorem C9_long_substring_rejected (names : List (List Char))
    (lastsub sub : List Char) (startpos : Nat) (dir : Int)
    (hlen : 255 ≤ sub.length) :
    findcharbyname names lastsub (some sub) startpos dir =
      (none, lastsub) := by
  simp [findcharbyname, hlen]

set_option maxRecDepth 4000 in
theorem C9_witness :
    findcharbyname [List.replicate 255 'A'] ['X']
        (some (List.replicate 255 'A')) 0 1 = (none, ['X']) ∧
    nameMatches (List.replicate 255 'A') (List.replicate 255 'A') = true :=
  ⟨C9_long_substring_rejected [List.replicate 255 'A'] ['X']
      (List.replicate 255 'A') 0 1 (by decide),
   by decide⟩

/-- Numeric value of a hexadecimal digit, or `none` for any other
character (`isxdigit` failure). -/
def hexDigitVal (c : Char) : Option Nat :=
  if '0' ≤ c ∧ c ≤ '9' then some (c.toNat - '0'.toNat)
  else if 'a' ≤ c ∧ c ≤ 'f' then some (c.toNat - 'a'.toNat + 10)
  else if 'A' ≤ c ∧ c ≤ 'F' then some (c.toNat - 'A'.toNat + 10)
  else none

/-- The digit-consuming core of `strtoul(input, &p, 16)`: accumulate the
maximal leading run of hex digits into `acc` and return the value
together with the unconsumed rest (where `p` ends up).  The
leading-whitespace, sign and `0x`-prefix forms the C library routine
also accepts are not modelled — the inputs at these call sites are bare
hex strings — and values are unbounded naturals, which subsumes the
`ERANGE` overflow check. -/
def hexRun : List Char → Nat → Nat × List Char
  | [], acc => (acc, [])
  | c :: rest, acc =>
      match hexDigitVal c with
      | some d => hexRun rest (16 * acc + d)
      | none => (acc, c :: rest)

/-- The validity test of `readuchar` after `strtoul`: at least one digit
consumed (`p != input`) and nothing left over (`!*p`). -/
def parseHex (s : List Char) : Option Nat :=
  if s.isEmpty then none
  else if (hexRun s 0).2.isEmpty then some (hexRun s 0).1 else none

/-- The parsing phase of `readuchar`: strip an optional `U+` prefix,
then parse the rest as hexadecimal. -/
def parseUchar (s : List Char) : Option Nat :=
  match s with
  | 'U' :: '+' :: rest => parseHex rest
  | _ => parseHex s

/-- `readuchar` from ubrowse.c: parse a hex codepoint value, reject
values above `lastucharval`, and resolve the value to an entry index
with `lookupchar`. -/
def readuchar (e : List Int) (s : List Char) : Option Nat :=
  match parseUchar s with
  | none => none
  | some v => if lastucharval < v then none else some (lookupchar e (v : Int))

/-- `readsinglecharstring` from ubrowse.c: succeeds only if the string
decodes to exactly one character under the active encoding — modelled by
the character list having exactly one element — and then resolves that
character's codepoint with `lookupchar`. -/
def readsinglecharstring (e : List Int) (s : List Char) : Option Nat :=
  match s with
  | [c] => some (lookupchar e (c.toNat : Int))
  | _ => none

/-- Outcome of the modal line input (`doinputui`): `cancelled` for ^G or
a read error (C returns -1), otherwise the confirmed accumulated text.
At the hex-jump prompt the `isxdigit` filter lets only hex digits
accumulate, and the 7-byte buffer holds at most 6 of them. -/
inductive inputResult where
  | cancelled
  | confirmed (s : List Char)

/-- `jumpui` from ubrowse.c, returning the resulting position and
whether `beep()` sounded.  A confirmed buffer goes straight through
`strtoul(buf, NULL, 16)` — an empty buffer therefore parses as 0. -/
def jumpui (e : List Int) (index : Nat) (inp : inputResult) : Nat × Bool :=
  match inp with
  | .cancelled => (index, false)
  | .confirmed s =>
      if lastucharval < (hexRun s 0).1 then (index, true)
      else (lookupchar e (((hexRun s 0).1 : Nat) : Int), false)

/-- C2: confirming the hex-jump input with the empty string — invalid
input per the claim — does not beep and does not keep the prior position
1: `strtoul("")` yields 0 and the view jumps to the entry for codepoint
0. -/
theorem C2_counterexample :
    jumpui [0, 5] 1 (.confirmed []) = (0, false) ∧ (0 : Nat) ≠ 1 := by
  decide

/-- C2 (amended): cancelling the hex-jump input returns the prior
position with no cue; confirming a hex value exceeding 0x10FFFF is
rejected with an audible cue and the prior position unchanged; every
other confirmed digit string — including the empty one, whose value is
0 — jumps silently to the nearest-match lookup of its value. -/
theorem C2_jump (e : List Int) (index : Nat) :
    jumpui e index .cancelled = (index, false) ∧
    (∀ s, lastucharval < (hexRun s 0).1 →
      jumpui e index (.confirmed s) = (index, true)) ∧
    (∀ s, (hexRun s 0).1 ≤ lastucharval →
      jumpui e index (.confirmed s) =
        (lookupchar e (((hexRun s 0).1 : Nat) : Int), false)) := by
  refine ⟨rfl, ?_, ?_⟩
  · intro s hs
    simp only [jumpui]
    rw [if_pos hs]
  · intro s hs
    simp only [jumpui]
    rw [if_neg (by omega)]

theorem C2_witness :
    jumpui [0, 5] 1 (.confirmed ['F', 'F', 'F', 'F', 'F', 'F']) =
      (1, true) ∧
    jumpui [0, 5] 1 (.confirmed ['2']) =
      (lookupchar [0, 5] (((hexRun ['2'] 0).1 : Nat) : Int), false) :=
  ⟨(C2_jump [0, 5] 1).2.1 ['F', 'F', 'F', 'F', 'F', 'F'] (by decide),
   (C2_jump [0, 5] 1).2.2 ['2'] (by decide)⟩

/-- The positional-argument interpretation in `readcmdline`: first a
single literal character, then a hex codepoint, then a forward name
search from index 0 (with the initially empty `lastsubstring`); `none`
means all three failed. -/
def readcmdlineStart (e : List Int) (names : List (List Char))
    (arg : List Char) : Option Nat :=
  match readsinglecharstring e arg with
  | some p => some p
  | none =>
      match readuchar e arg with
      | some p => some p
      | none => (findcharbyname names [] (some arg) 0 1).1

/-- `main`'s startup on a positional argument: a failed interpretation
aborts via `die` (error text on stderr, nonzero exit) before
`ioinit`/`mainui` run, so no UI is drawn; otherwise the UI starts at the
resolved position. -/
def programInit (e : List Int) (names : List (List Char))
    (arg : List Char) : Except Unit Nat :=
  match readcmdlineStart e names arg with
  | some p => Except.ok p
  | none => Except.error ()

/-- C8 (confirmed): the positional argument is interpreted first as a
single literal character, then as an optionally `U+`-prefixed hex
codepoint, then as a name substring searched forward from index 0; the
first success wins, and when all three fail the program exits with an
error before any UI is drawn. -/
theorem C8_positional_priority (e : List Int) (names : List (List Char))
    (arg : List Char) :
    (∀ p, readsinglecharstring e arg = some p →
      readcmdlineStart e names arg = some p) ∧
    (∀ p, readsinglecharstring e arg = none → readuchar e arg = some p →
      readcmdlineStart e names arg = some p) ∧
    (readsinglecharstring e arg = none → readuchar e arg = none →
      readcmdlineStart e names arg =
        (findcharbyname names [] (some arg) 0 1).1) ∧
    (readcmdlineStart e names arg = none →
      programInit e names arg = Except.error ()) ∧
    (∀ p, readcmdlineStart e names arg = some p →
      programInit e names arg = Except.ok p) := by
  refine ⟨?_, ?_, ?_, ?_, ?_⟩
  · intro p hp
    simp [readcmdlineStart, hp]
  · intro p h1 h2
    simp [readcmdlineStart, h1, h2]
  · intro h1 h2
    simp [readcmdlineStart, h1, h2]
  · intro h
    simp [programInit, h]
  · intro p h
    simp [programInit, h]

theorem C8_witness :
    readcmdlineStart [65] [['A']] ['A'] = some 0 ∧
    programInit [65] [['B']] ['z', 'z'] = Except.error () :=
  ⟨(C8_positional_priority [65] [['A']] ['A']).1 0 (by decide),
   (C8_positional_priority [65] [['B']] ['z', 'z']).2.2.2.1 (by decide)⟩

/-- The accent option (`-a`, `--accent`) argument handling in
`readcmdline`: a single-byte
argument is used directly as the accent character; anything longer goes
through `readuchar`, whose failure is fatal (`die`, modelled as `none`)
and whose success makes the accent character
`charlist[readuchar(optarg)].uchar` — the value of the looked-up
(nearest) entry, not the requested value. -/
def readAccentArg (e : List Int) (optarg : List Char) : Option Int :=
  match optarg with
  | [c] => some ((c.toNat : Nat) : Int)
  | _ =>
      match readuchar e optarg with
      | none => none
      | some idx => some (e.getD idx 0)

/-- C10 (confirmed): when the accent option's argument is longer than
one character and parses as a hex value at most 0x10FFFF that is not
itself an entry value, the accent codepoint is silently set (no error)
to the value of the nearest assigned codepoint per `lookupchar`, which
differs from the requested value. -/
theorem C10_accent_snaps (e : List Int) (hsort : sortedLt e)
    (hne : e ≠ []) (optarg : List Char) (hlen : 2 ≤ optarg.length)
    (v : Nat) (hv : parseUchar optarg = some v) (hmax : v ≤ lastucharval)
    (hnot : ∀ j, j < e.length → e.getD j 0 ≠ (v : Int)) :
    readAccentArg e optarg = some (e.getD (lookupchar e (v : Int)) 0) ∧
    e.getD (lookupchar e (v : Int)) 0 ≠ (v : Int) := by
  have hru : readuchar e optarg = some (lookupchar e (v : Int)) := by
    unfold readuchar
    rw [hv]
    show (if lastucharval < v then none else some (lookupchar e (v : Int)))
      = some (lookupchar e (v : Int))
    rw [if_neg (by omega)]
  constructor
  · rcases optarg with _ | ⟨c, rest⟩
    · simp at hlen
    · rcases rest with _ | ⟨d, rest2⟩
      · simp at hlen
      · simp only [readAccentArg]
        rw [hru]
  · exact hnot _ (lookupchar_lt_length e _ hsort hne)

theorem C10_witness :
    readAccentArg [0, 10] ['0', '7'] =
      some (([0, 10] : List Int).getD
        (lookupchar [0, 10] ((7 : Nat) : Int)) 0) ∧
    ([0, 10] : List Int).getD (lookupchar [0, 10] ((7 : Nat) : Int)) 0 ≠
      ((7 : Nat) : Int) :=
  C10_accent_snaps [0, 10] (by decide) (by decide) ['0', '7'] (by decide)
    7 (by decide) (by decide) (by decide)

end Ubrowse
